import Mathlib

/-!
Verification development for the gemini-cli-proxy repository.

Shallow embedding of the pure/state-transforming cores of:
- the Antigravity OAuth credential rotator (src/antigravity/oauth-rotator.ts),
- the Antigravity API client: SSE decoding, stream chunk production,
  non-streaming aggregation and endpoint fallback (antigravity client file),
- the OpenAI-to-Antigravity mapper: schema transform and thinking budget
  (src/antigravity/openai-mapper.ts),
- the model fallback engine (tested in src/auth/cli.ts, chain table in
  src/antigravity/paths.ts).

File-system reads/writes, network calls and logging are effects orthogonal to
the verified properties; where a function's result depends on such an effect
(credential validation, HTTP status codes) the effect's outcome is passed in
as an explicit argument.
-/

namespace GeminiProxy

/-! ## Credential rotator (src/antigravity/oauth-rotator.ts)

State of `AntigravityOAuthRotator` relevant to rotation.  The rotator is a
singleton; `credentialFilePaths`, `currentIndex`, `isEnabled` and
`allAccountsExhausted` are its fields.  Credential validation and the copy of
the credential file to the canonical cache path are I/O; a successful
rotation is modelled by returning the new credential path. -/

structure RotatorState where
  credentialFilePaths : List String
  currentIndex : Nat
  isEnabled : Bool
  allAccountsExhausted : Bool
  deriving Repr, DecidableEq

/-- `initialize(paths)`: empty pool disables rotation; otherwise the pool is
installed with index 0 and the enabled flag set. -/
def initializeRotator (paths : List String) : RotatorState :=
  if paths.isEmpty then
    { credentialFilePaths := [], currentIndex := 0, isEnabled := false,
      allAccountsExhausted := false }
  else
    { credentialFilePaths := paths, currentIndex := 0, isEnabled := true,
      allAccountsExhausted := false }

/-- `isRotationEnabled()`: enabled flag and strictly more than one credential. -/
def isRotationEnabled (st : RotatorState) : Bool :=
  st.isEnabled && decide (st.credentialFilePaths.length > 1)

/-- `resetExhaustionState()`. -/
def resetExhaustionState (st : RotatorState) : RotatorState :=
  { st with allAccountsExhausted := false }

/-- The index/exhaustion effect of `shouldResetIndex()`: whether the
time-based reset fires depends on the clock, passed in as `fires`. -/
def shouldResetIndex (fires : Bool) (st : RotatorState) : RotatorState :=
  if fires then
    { st with currentIndex := 0, allAccountsExhausted := false }
  else st

/-- `performRotation()`: clear a standing exhaustion flag, advance the index
modulo the pool size, flag exhaustion when the new index wraps to 0, and
return the new credential path (validation and file copy assumed to
succeed, as this models a successful rotation). -/
def performRotation (st : RotatorState) : RotatorState × Option String :=
  let st1 := if st.allAccountsExhausted then resetExhaustionState st else st
  let newIndex := (st1.currentIndex + 1) % st1.credentialFilePaths.length
  let st2 := { st1 with currentIndex := newIndex }
  let st3 := if newIndex = 0 then { st2 with allAccountsExhausted := true } else st2
  (st3, some (st3.credentialFilePaths.getD newIndex ""))

/-- `rotateCredentials()` (sequential behaviour; the single-flight guard is
modelled separately): disabled rotation returns null and leaves the state
unchanged; otherwise the time-based reset hook runs and then the rotation
is performed. -/
def rotateCredentials (fires : Bool) (st : RotatorState) : RotatorState × Option String :=
  if !isRotationEnabled st then (st, none)
  else performRotation (shouldResetIndex fires st)

/-- State after `k` consecutive `rotateCredentials()` calls with no
time-based reset firing. -/
def rotIter : Nat → RotatorState → RotatorState
  | 0, st => st
  | k + 1, st => (rotateCredentials false (rotIter k st)).1

/-- `getCurrentAccountPath()`. -/
def getCurrentAccountPath (st : RotatorState) : Option String :=
  if !st.isEnabled || st.credentialFilePaths.isEmpty then none
  else some (st.credentialFilePaths.getD st.currentIndex "")

theorem rotIter_succ (k : Nat) (st : RotatorState) :
    rotIter (k + 1) st = (rotateCredentials false (rotIter k st)).1 := rfl

/-- One enabled, non-exhausted, reset-free rotation step in closed form. -/
theorem rotate_step (paths : List String) (k : Nat) (h2 : 2 ≤ paths.length) :
    rotateCredentials false
        { credentialFilePaths := paths, currentIndex := k,
          isEnabled := true, allAccountsExhausted := false } =
      ({ credentialFilePaths := paths, currentIndex := (k + 1) % paths.length,
         isEnabled := true,
         allAccountsExhausted := decide ((k + 1) % paths.length = 0) },
       some (paths.getD ((k + 1) % paths.length) "")) := by
  have h1 : 1 < paths.length := by omega
  simp only [rotateCredentials, isRotationEnabled, shouldResetIndex,
    performRotation, resetExhaustionState]
  simp only [h1]
  by_cases hz : (k + 1) % paths.length = 0 <;> simp [hz, h1]

/-- Closed form for the state during the first full rotation cycle. -/
theorem rotIter_closed (paths : List String) (h2 : 2 ≤ paths.length) :
    ∀ k, k ≤ paths.length →
      rotIter k (initializeRotator paths) =
        { credentialFilePaths := paths, currentIndex := k % paths.length,
          isEnabled := true, allAccountsExhausted := decide (k = paths.length) } := by
  intro k
  induction k with
  | zero =>
    intro _
    have hne : paths.isEmpty = false := by
      cases paths with
      | nil => simp at h2
      | cons a l => simp [List.isEmpty]
    have h0 : decide (0 = paths.length) = false := by
      simp only [decide_eq_false_iff_not]
      omega
    simp [rotIter, initializeRotator, hne, Nat.zero_mod, h0]
  | succ k ih =>
    intro hk
    have hklt : k < paths.length := by omega
    have hmod : k % paths.length = k := Nat.mod_eq_of_lt hklt
    have hnex : decide (k = paths.length) = false := by
      simp only [decide_eq_false_iff_not]
      omega
    have hId : rotIter k (initializeRotator paths) =
        { credentialFilePaths := paths, currentIndex := k,
          isEnabled := true, allAccountsExhausted := false } := by
      rw [ih (by omega), hmod, hnex]
    rw [rotIter_succ, hId, rotate_step paths k h2]
    have : decide ((k + 1) % paths.length = 0) = decide (k + 1 = paths.length) := by
      by_cases hwrap : k + 1 = paths.length
      · rw [hwrap, Nat.mod_self]
        simp
      · have hlt : k + 1 < paths.length := by omega
        rw [Nat.mod_eq_of_lt hlt]
        simp only [decide_eq_decide]
        omega
    rw [this]

/-- C1: for a pool of size N ≥ 2 starting at index 0, N consecutive
successful `rotateCredentials()` calls return the pool to the original
credential path (the N-th call returns the path the rotator started on),
leave the index back at 0, and set the exhaustion flag exactly once per
cycle, at the call whose new index is 0 (the flag is false after every
earlier call and true after the N-th); for a pool of size 0 or 1 every
`rotateCredentials()` call returns null and leaves the state (in
particular the current index) unchanged. -/
theorem c1_rotation_cycle (paths : List String) (h2 : 2 ≤ paths.length) :
    ((rotateCredentials false (rotIter (paths.length - 1) (initializeRotator paths))).2 =
        getCurrentAccountPath (initializeRotator paths)
      ∧ (rotIter paths.length (initializeRotator paths)).currentIndex = 0
      ∧ (rotIter paths.length (initializeRotator paths)).allAccountsExhausted = true
      ∧ ∀ k, k < paths.length →
          (rotIter k (initializeRotator paths)).allAccountsExhausted = false)
    ∧ ∀ st : RotatorState, st.credentialFilePaths.length ≤ 1 →
        ∀ fires, rotateCredentials fires st = (st, none) := by
  constructor
  · have hne : paths.isEmpty = false := by
      cases paths with
      | nil => simp at h2
      | cons a l => simp [List.isEmpty]
    refine ⟨?_, ?_, ?_, ?_⟩
    · have hlt : paths.length - 1 < paths.length := by omega
      have hcl := rotIter_closed paths h2 (paths.length - 1) (by omega)
      have hmod : (paths.length - 1) % paths.length = paths.length - 1 :=
        Nat.mod_eq_of_lt hlt
      have hnex : decide (paths.length - 1 = paths.length) = false := by
        simp only [decide_eq_false_iff_not]
        omega
      rw [hcl, hmod, hnex, rotate_step paths (paths.length - 1) h2]
      have hwrap : (paths.length - 1 + 1) % paths.length = 0 := by
        have : paths.length - 1 + 1 = paths.length := by omega
        rw [this, Nat.mod_self]
      rw [hwrap]
      simp [getCurrentAccountPath, initializeRotator, hne]
    · rw [rotIter_closed paths h2 paths.length (le_refl _)]
      simp
    · rw [rotIter_closed paths h2 paths.length (le_refl _)]
      simp
    · intro k hk
      rw [rotIter_closed paths h2 k (by omega)]
      simp only [decide_eq_false_iff_not]
      omega
  · intro st hlen fires
    have hdis : decide (st.credentialFilePaths.length > 1) = false := by
      simp only [decide_eq_false_iff_not]
      omega
    simp [rotateCredentials, isRotationEnabled, hdis]

/-- C1 witness: a concrete 3-account pool. -/
theorem c1_rotation_cycle_witness :
    (rotateCredentials false (rotIter 2 (initializeRotator ["a", "b", "c"]))).2 =
      getCurrentAccountPath (initializeRotator ["a", "b", "c"]) :=
  (c1_rotation_cycle ["a", "b", "c"] (by decide)).1.1

/-! ## SSE stream decoder (`parseSSEStream` in the Antigravity client)

The client pipes the byte stream through `TextDecoderStream` (a streaming
UTF-8 decoder, so the concatenation of the delivered text chunks equals the
decode of the whole byte payload regardless of where the byte boundaries
fall) and then maintains a line buffer `buffer` and a pending frame buffer
`objectBuffer`.  Chunks are modelled as `List Char` after text decoding.
The decoder's output is modelled as the list of frame strings handed to
`JSON.parse`; the emitted JSON envelopes are `List.filterMap parse` of that
list (a parse failure is logged and dropped), so equal frame lists give
equal envelope sequences. -/

/-- `buffer.split("\n")`: split into lines at every newline; always
non-empty, and the last element is the trailing text after the final
newline (the new value of `buffer`). -/
def splitLines : List Char → List (List Char)
  | [] => [[]]
  | c :: rest =>
    if c = '\n' then [] :: splitLines rest
    else
      match splitLines rest with
      | [] => [[c]]
      | l :: ls => (c :: l) :: ls

/-- The frame-level state: the pending `objectBuffer` and the frames
emitted so far. -/
structure FrameAcc where
  objectBuffer : List Char
  frames : List (List Char)
  deriving Repr, DecidableEq

/-- One complete line, as in the body of the `for (const line of lines)`
loop: a line that trims to empty flushes a non-empty pending frame; a line
starting with `"data: "` appends its remainder to the pending frame; any
other line is ignored. -/
def processLine (acc : FrameAcc) (line : List Char) : FrameAcc :=
  if line.all Char.isWhitespace then
    if acc.objectBuffer.isEmpty then acc
    else { objectBuffer := [], frames := acc.frames ++ [acc.objectBuffer] }
  else if line.take 6 = "data: ".toList then
    { acc with objectBuffer := acc.objectBuffer ++ line.drop 6 }
  else acc

/-- The decoder state across chunk deliveries. -/
structure SSEState where
  buffer : List Char
  acc : FrameAcc
  deriving Repr, DecidableEq

/-- Last element of a line split (`lines.pop()`; the split is never empty,
so the default is never reached). -/
def lastD : List (List Char) → List Char
  | [] => []
  | [x] => x
  | _ :: x :: xs => lastD (x :: xs)

/-- One `reader.read()` delivery: append the chunk to the line buffer,
split on newlines, keep the trailing partial line as the new buffer, and
process every complete line. -/
def feedChunk (st : SSEState) (chunk : List Char) : SSEState :=
  { buffer := lastD (splitLines (st.buffer ++ chunk)),
    acc := ((splitLines (st.buffer ++ chunk)).dropLast).foldl processLine st.acc }

def initSSE : SSEState := { buffer := [], acc := { objectBuffer := [], frames := [] } }

/-- Stream end (`done`): a non-empty pending `objectBuffer` is emitted as a
final frame; the residual line `buffer` is dropped. -/
def finishSSE (st : SSEState) : List (List Char) :=
  if st.acc.objectBuffer.isEmpty then st.acc.frames
  else st.acc.frames ++ [st.acc.objectBuffer]

/-- The whole decoder: frames produced for a sequence of delivered chunks. -/
def parseSSEStream (chunks : List (List Char)) : List (List Char) :=
  finishSSE (chunks.foldl feedChunk initSSE)

theorem splitLines_cons (c : Char) (s : List Char) :
    splitLines (c :: s) =
      if c = '\n' then [] :: splitLines s
      else
        match splitLines s with
        | [] => [[c]]
        | l :: ls => (c :: l) :: ls := rfl

theorem splitLines_ne_nil (s : List Char) : splitLines s ≠ [] := by
  cases s with
  | nil => simp [splitLines]
  | cons c rest =>
    rw [splitLines_cons]
    split
    · simp
    · split <;> simp

theorem lastD_cons_ne (a : List Char) (l : List (List Char)) (h : l ≠ []) :
    lastD (a :: l) = lastD l := by
  cases l with
  | nil => exact absurd rfl h
  | cons b m => rfl

theorem lastD_append_ne (X Y : List (List Char)) (h : Y ≠ []) :
    lastD (X ++ Y) = lastD Y := by
  induction X with
  | nil => rfl
  | cons a X ih =>
    have hne : X ++ Y ≠ [] := by
      intro hcon
      exact h (List.append_eq_nil.mp hcon).2
    rw [List.cons_append, lastD_cons_ne a (X ++ Y) hne, ih]

theorem dropLast_append_ne {α : Type} (X Y : List α) (h : Y ≠ []) :
    (X ++ Y).dropLast = X ++ Y.dropLast := by
  induction X with
  | nil => rfl
  | cons a X ih =>
    cases hXY : X ++ Y with
    | nil => exact absurd (List.append_eq_nil.mp hXY).2 h
    | cons b m =>
      rw [List.cons_append, hXY, List.dropLast_cons₂, ← hXY, ih, List.cons_append]

/-- Prepend a partial line to the head of a line split. -/
def glue (x : List Char) : List (List Char) → List (List Char)
  | [] => [x]
  | q :: qs => (x ++ q) :: qs

theorem glue_ne_nil (x : List Char) (Q : List (List Char)) : glue x Q ≠ [] := by
  cases Q <;> simp [glue]

/-- `split` is compatible with concatenation: splitting `a ++ b` joins the
last line of `a` with the first line of `b`. -/
theorem splitLines_append (a b : List Char) :
    splitLines (a ++ b) =
      (splitLines a).dropLast ++ glue (lastD (splitLines a)) (splitLines b) := by
  induction a with
  | nil =>
    cases hb : splitLines b with
    | nil => exact absurd hb (splitLines_ne_nil b)
    | cons q qs =>
      simp [splitLines, glue, lastD, hb]
  | cons c a ih =>
    by_cases hc : c = '\n'
    · subst hc
      rw [List.cons_append, splitLines_cons, if_pos rfl, ih, splitLines_cons, if_pos rfl]
      cases hp2 : splitLines a with
      | nil => exact absurd hp2 (splitLines_ne_nil a)
      | cons p ps =>
        rw [List.dropLast_cons₂, lastD_cons_ne ([] : List Char) (p :: ps) (by simp)]
        simp [List.cons_append]
    · rw [List.cons_append, splitLines_cons, if_neg hc, ih, splitLines_cons, if_neg hc]
      cases hp2 : splitLines a with
      | nil => exact absurd hp2 (splitLines_ne_nil a)
      | cons p ps =>
        cases hq : splitLines b with
        | nil => exact absurd hq (splitLines_ne_nil b)
        | cons q qs =>
          cases ps with
          | nil => simp [glue, lastD]
          | cons p2 ps2 =>
            simp [glue, lastD, List.dropLast_cons₂, lastD_cons_ne]

theorem no_nl_lastD (s : List Char) : '\n' ∉ lastD (splitLines s) := by
  induction s with
  | nil => simp [splitLines, lastD]
  | cons c rest ih =>
    by_cases hc : c = '\n'
    · subst hc
      rw [splitLines_cons, if_pos rfl]
      cases hp : splitLines rest with
      | nil => exact absurd hp (splitLines_ne_nil rest)
      | cons p ps =>
        rw [lastD_cons_ne _ _ (by simp)]
        rw [hp] at ih
        exact ih
    · rw [splitLines_cons, if_neg hc]
      cases hp : splitLines rest with
      | nil => exact absurd hp (splitLines_ne_nil rest)
      | cons p ps =>
        rw [hp] at ih
        cases ps with
        | nil =>
          show '\n' ∉ c :: p
          intro hmem
          rcases List.mem_cons.mp hmem with h | h
          · exact hc h.symm
          · exact ih h
        | cons p2 ps2 =>
          show '\n' ∉ lastD ((c :: p) :: p2 :: ps2)
          rw [lastD_cons_ne _ _ (by simp)]
          rw [lastD_cons_ne _ _ (by simp)] at ih
          exact ih

theorem splitLines_of_no_nl (l : List Char) (h : '\n' ∉ l) : splitLines l = [l] := by
  induction l with
  | nil => rfl
  | cons c rest ih =>
    have hc : c ≠ '\n' := by
      intro hcc
      exact h (hcc ▸ List.mem_cons_self c rest)
    have hr : '\n' ∉ rest := fun hm => h (List.mem_cons_of_mem c hm)
    rw [splitLines_cons, if_neg hc, ih hr]

/-- Feeding `a ++ b` in one delivery equals feeding `a` then `b`. -/
theorem feed_append (st : SSEState) (a b : List Char) :
    feedChunk st (a ++ b) = feedChunk (feedChunk st a) b := by
  have hglue : splitLines (lastD (splitLines (st.buffer ++ a)) ++ b) =
      glue (lastD (splitLines (st.buffer ++ a))) (splitLines b) := by
    rw [splitLines_append, splitLines_of_no_nl _ (no_nl_lastD (st.buffer ++ a))]
    simp [glue, lastD]
  have hne := glue_ne_nil (lastD (splitLines (st.buffer ++ a))) (splitLines b)
  simp only [feedChunk, ← List.append_assoc, splitLines_append (st.buffer ++ a) b, hglue]
  rw [lastD_append_ne _ _ hne, dropLast_append_ne _ _ hne, List.foldl_append]

theorem feed_buffer_no_nl (st : SSEState) (c : List Char) :
    '\n' ∉ (feedChunk st c).buffer := no_nl_lastD _

theorem feed_nil (st : SSEState) (h : '\n' ∉ st.buffer) : feedChunk st [] = st := by
  cases st with
  | mk buf acc =>
    simp only [feedChunk, List.append_nil]
    rw [splitLines_of_no_nl buf h]
    simp [lastD]

/-- Folding the decoder over a chunk list equals one delivery of the
concatenated payload. -/
theorem foldl_feed (chunks : List (List Char)) (st : SSEState) (h : '\n' ∉ st.buffer) :
    chunks.foldl feedChunk st = feedChunk st chunks.flatten := by
  induction chunks generalizing st with
  | nil =>
    simp only [List.foldl_nil, List.flatten_nil]
    exact (feed_nil st h).symm
  | cons c cs ih =>
    simp only [List.foldl_cons, List.flatten_cons]
    rw [ih (feedChunk st c) (feed_buffer_no_nl st c), ← feed_append]

/-- C2: feeding the same payload split at arbitrary boundaries across any
number of delivered chunks yields exactly the same frame sequence — and
hence, for any parse function, the same sequence of parsed JSON envelopes
in the same order — as delivering the whole payload in a single chunk.
(Byte-level splits inside a multi-byte character are reassembled by the
streaming `TextDecoderStream`, so every byte chunking of the payload decodes
to some character chunking with the same concatenation.) -/
theorem c2_chunking_invariance (chunks : List (List Char)) :
    parseSSEStream chunks = parseSSEStream [chunks.flatten]
      ∧ ∀ (parse : List Char → Option (List Char)),
          (parseSSEStream chunks).filterMap parse =
            (parseSSEStream [chunks.flatten]).filterMap parse := by
  have hmain : parseSSEStream chunks = parseSSEStream [chunks.flatten] := by
    unfold parseSSEStream
    rw [foldl_feed chunks initSSE (by simp [initSSE])]
    rfl
  exact ⟨hmain, fun parse => by rw [hmain]⟩

/-- C3 counterexample: a stream ending in a `data: ` line with no trailing
newline.  The line never leaves the line buffer, which is discarded at
stream end: no event is parsed or emitted, refuting the claim that such a
final line is still emitted. -/
theorem c3_counterexample : parseSSEStream [("data: 1").toList] = [] := by decide

/-- C3 (amended): at stream end a non-empty pending frame buffer — fed by
complete, newline-terminated `data: ` lines even when no blank line
follows them — is parsed and emitted as a final event; but a final
`data: ` line that has no trailing newline never reaches the frame buffer
and is dropped. -/
theorem c3_trailing_frame (d : List Char) (hnl : '\n' ∉ d) (hne : d ≠ []) :
    parseSSEStream [("data: ".toList ++ d ++ ['\n'])] = [d]
      ∧ parseSSEStream [("data: ".toList ++ d)] = [] := by
  have hx : '\n' ∉ ("data: ".toList ++ d) := by
    intro hmem
    rcases List.mem_append.mp hmem with h | h
    · revert h
      decide
    · exact hnl h
  have h6 : ("data: ".toList).length = 6 := by decide
  have hws : (("data: ".toList ++ d).all Char.isWhitespace) = false := by
    rw [List.all_append]
    have hdw : ("data: ".toList.all Char.isWhitespace) = false := by decide
    simp [hdw]
  have htake : ("data: ".toList ++ d).take 6 = "data: ".toList := by
    rw [← h6, List.take_left]
  have hdrop : ("data: ".toList ++ d).drop 6 = d := by
    rw [← h6, List.drop_left]
  have hie : d.isEmpty = false := by
    cases d with
    | nil => exact absurd rfl hne
    | cons a l => rfl
  constructor
  · have hsplit : splitLines ("data: ".toList ++ d ++ ['\n']) =
        [("data: ".toList ++ d), []] := by
      rw [splitLines_append ("data: ".toList ++ d) ['\n'], splitLines_of_no_nl _ hx]
      simp [glue, lastD, splitLines]
    unfold parseSSEStream
    simp only [List.foldl_cons, List.foldl_nil, feedChunk, initSSE, List.nil_append, hsplit]
    simp only [List.dropLast_cons₂, List.dropLast_single, List.foldl_cons, List.foldl_nil]
    simp only [processLine, hws, Bool.false_eq_true, if_false, htake, if_pos, hdrop]
    simp [finishSSE, hie, lastD]
  · unfold parseSSEStream
    simp only [List.foldl_cons, List.foldl_nil, feedChunk, initSSE, List.nil_append]
    rw [splitLines_of_no_nl _ hx]
    simp [finishSSE, lastD, initSSE]

/-- C3 witness: the concrete terminated frame `data: 1\n` is emitted at
stream end while the unterminated `data: 1` is not. -/
theorem c3_trailing_frame_witness :
    parseSSEStream [("data: ".toList ++ "1".toList ++ ['\n'])] = ["1".toList]
      ∧ parseSSEStream [("data: ".toList ++ "1".toList)] = [] :=
  c3_trailing_frame "1".toList (by decide) (by decide)

/-! ## Stream chunk production (`streamContent` in the Antigravity client)

The loop body of `streamContent` after a successful response: per parsed
envelope it walks `candidates[0].content.parts`, yielding OpenAI-style
delta chunks, and finally yields a terminal chunk carrying the finish
reason and merged usage.  `crypto.randomUUID()` tool-call identifiers are
modelled by a deterministic counter (their only observable use is identity
and presence).  The per-client fields `firstChunk` and
`_lastThoughtSignature` are part of the loop state; the signature a fresh
client starts with is a parameter. -/

/-- A JavaScript string-or-null-or-absent value, as stored in a delta
field; truthiness is "a non-empty string". -/
inductive JsStr where
  | absent
  | null
  | str (s : String)
  deriving Repr, DecidableEq

/-- The string content, with `""` for null/absent. -/
def JsStr.strD : JsStr → String
  | .str s => s
  | _ => ""

/-- JS truthiness of the value (`null`, `undefined` and `""` are falsy). -/
def JsStr.truthy (v : JsStr) : Bool := !v.strD.isEmpty

/-- JS truthiness of an optional string field. -/
def jsTruthyOpt (s : Option String) : Bool :=
  match s with
  | some t => !t.isEmpty
  | none => false

structure ToolCallDelta where
  index : Nat
  id : String
  name : String
  args : String
  deriving Repr, DecidableEq

structure StreamDelta where
  role : Option String := none
  content : JsStr := .absent
  reasoning : JsStr := .absent
  tool_calls : Option (List ToolCallDelta) := none
  deriving Repr, DecidableEq

structure UsageData where
  prompt_tokens : Nat
  completion_tokens : Nat
  total_tokens : Nat
  deriving Repr, DecidableEq

/-- One yielded chunk (`createOpenAIChunk` wraps the delta in a fixed
id/object/created/model/choices envelope; only the delta, the finish
reason and the usage vary). -/
structure StreamChunk where
  delta : StreamDelta
  finish_reason : Option String := none
  usage : Option UsageData := none
  deriving Repr, DecidableEq

/-- One entry of `candidate.content.parts` in a parsed SSE envelope. -/
inductive GPart where
  | textPart (text : String) (thought : Bool) (sig : Option String)
  | funcCall (name : String) (argsJson : String) (sig : Option String)
  | funcResp (sig : Option String)
  deriving Repr, DecidableEq

structure UsageMeta where
  promptTokenCount : Option Nat
  candidatesTokenCount : Option Nat
  thoughtsTokenCount : Option Nat
  deriving Repr, DecidableEq

/-- A parsed SSE envelope, reduced to the fields `streamContent` reads. -/
structure Envelope where
  parts : List GPart
  usageMetadata : Option UsageMeta
  deriving Repr, DecidableEq

structure StreamLoopState where
  firstChunk : Bool
  toolCallId : Option String
  lastThoughtSignature : Option String
  usageData : Option UsageData
  reasoningTokens : Nat
  callCounter : Nat
  deriving Repr, DecidableEq

/-- `if (part.thoughtSignature) this._lastThoughtSignature = ...`. -/
def sigUpdate (cur sig : Option String) : Option String :=
  if jsTruthyOpt sig then sig else cur

/-- One part of an envelope: the chunks it yields and the state update. -/
def processPart (st : StreamLoopState) (p : GPart) : StreamLoopState × List StreamChunk :=
  match p with
  | .textPart text thought sig =>
    let delta0 : StreamDelta :=
      if thought then { reasoning := .str text } else { content := .str text }
    let delta :=
      if st.firstChunk then { delta0 with role := some "assistant" } else delta0
    ({ st with firstChunk := false,
               lastThoughtSignature := sigUpdate st.lastThoughtSignature sig },
     [{ delta := delta }])
  | .funcCall name args sig =>
    let id := "call_" ++ toString st.callCounter
    let delta0 : StreamDelta :=
      { tool_calls := some [{ index := 0, id := id, name := name, args := args }] }
    let delta :=
      if st.firstChunk then { delta0 with role := some "assistant", content := .null }
      else delta0
    ({ st with firstChunk := false, toolCallId := some id,
               callCounter := st.callCounter + 1,
               lastThoughtSignature := sigUpdate st.lastThoughtSignature sig },
     [{ delta := delta }])
  | .funcResp sig =>
    ({ st with lastThoughtSignature := sigUpdate st.lastThoughtSignature sig }, [])

/-- All parts of one envelope, then its `usageMetadata` block. -/
def processEnvelope (st : StreamLoopState) (env : Envelope) :
    StreamLoopState × List StreamChunk :=
  let r := env.parts.foldl
    (fun acc p =>
      let r := processPart acc.1 p
      (r.1, acc.2 ++ r.2))
    (st, ([] : List StreamChunk))
  match env.usageMetadata with
  | none => r
  | some u =>
    let p := u.promptTokenCount.getD 0
    let c := u.candidatesTokenCount.getD 0
    ({ r.1 with reasoningTokens := u.thoughtsTokenCount.getD 0,
                usageData := some { prompt_tokens := p, completion_tokens := c,
                                    total_tokens := p + c } },
     r.2)

def initLoopState (sig0 : Option String) : StreamLoopState :=
  { firstChunk := true, toolCallId := none, lastThoughtSignature := sig0,
    usageData := none, reasoningTokens := 0, callCounter := 0 }

/-- The terminal finish reason, exactly as computed after the SSE loop:
`toolCallId ? "tool_calls" : "stop"`, followed by the (unsatisfiable)
`toolCallId && _lastThoughtSignature && finishReason === "stop"` upgrade. -/
def finishReasonOf (st : StreamLoopState) : String :=
  let fr := if st.toolCallId.isSome then "tool_calls" else "stop"
  if st.toolCallId.isSome && jsTruthyOpt st.lastThoughtSignature && fr == "stop" then
    "tool_calls"
  else fr

/-- The terminal chunk: finish reason plus usage, with reasoning tokens
folded into the completion and total counts when positive. -/
def finalChunkOf (st : StreamLoopState) : StreamChunk :=
  let base : StreamChunk := { delta := {}, finish_reason := some (finishReasonOf st) }
  match st.usageData with
  | none => base
  | some u =>
    if st.reasoningTokens > 0 then
      let merged : UsageData :=
        { prompt_tokens := u.prompt_tokens,
          completion_tokens := u.completion_tokens + st.reasoningTokens,
          total_tokens := u.total_tokens + st.reasoningTokens }
      { base with usage := some merged }
    else { base with usage := some u }

/-- The complete chunk sequence produced by `streamContent` for a list of
parsed envelopes. -/
def streamContent (sig0 : Option String) (envs : List Envelope) : List StreamChunk :=
  let r := envs.foldl
    (fun acc env =>
      let r := processEnvelope acc.1 env
      (r.1, acc.2 ++ r.2))
    (initLoopState sig0, ([] : List StreamChunk))
  r.2 ++ [finalChunkOf r.1]

/-- C4 evaluation at the failing input: an envelope whose only part is a
`functionResponse` carrying a thought signature produces no tool call, yet
leaves the continuity token pending; the terminal chunk's finish reason is
"stop", not the "tool_calls" the claim requires (the upgrade conditional
in the source requires `toolCallId` to be set and the reason to already be
"stop" at once, which is unsatisfiable).  The usage half of the claim does
hold: reasoning tokens are added to the completion and total counts. -/
theorem c4_finish_reason_eval :
    (streamContent none [{ parts := [GPart.funcResp (some "sig")],
                           usageMetadata := none }]).map
        (fun c => c.finish_reason) = [some "stop"]
      ∧ (streamContent none
            [{ parts := [],
               usageMetadata :=
                 some { promptTokenCount := some 10, candidatesTokenCount := some 5,
                        thoughtsTokenCount := some 7 } }]).map (fun c => c.usage) =
          [some { prompt_tokens := 10, completion_tokens := 12, total_tokens := 22 }] := by
  constructor <;> rfl

/-! ## Non-streaming aggregation (`getCompletion`)

`getCompletion` collects every chunk of `streamContent` and folds them:
truthy content/reasoning deltas are concatenated, tool-call delta lists
are appended, and each chunk carrying usage overwrites the running usage. -/

structure CompletionResult where
  content : String
  reasoning : Option String
  tool_calls : Option (List ToolCallDelta)
  usage : Option (Nat × Nat)
  deriving Repr, DecidableEq

structure AggAcc where
  content : String
  reasoning : String
  tool_calls : List ToolCallDelta
  usage : Option (Nat × Nat)
  deriving Repr, DecidableEq

/-- The body of `getCompletion`'s loop over the collected chunks. -/
def aggStep (a : AggAcc) (c : StreamChunk) : AggAcc :=
  { content :=
      if c.delta.content.truthy then a.content ++ c.delta.content.strD else a.content,
    reasoning :=
      if c.delta.reasoning.truthy then a.reasoning ++ c.delta.reasoning.strD
      else a.reasoning,
    tool_calls :=
      match c.delta.tool_calls with
      | some tcs => a.tool_calls ++ tcs
      | none => a.tool_calls,
    usage :=
      match c.usage with
      | some u => some (u.prompt_tokens, u.completion_tokens)
      | none => a.usage }

/-- `getCompletion`: drain `streamContent` and aggregate, with
`reasoning || undefined` and the non-empty guard on `tool_calls`. -/
def getCompletion (sig0 : Option String) (envs : List Envelope) : CompletionResult :=
  let a := (streamContent sig0 envs).foldl aggStep
    { content := "", reasoning := "", tool_calls := [], usage := none }
  { content := a.content,
    reasoning := if a.reasoning.isEmpty then none else some a.reasoning,
    tool_calls := if a.tool_calls.isEmpty then none else some a.tool_calls,
    usage := a.usage }

/-- Spec-side view: the content strings of the chunks, in order. -/
def contentDeltas (chunks : List StreamChunk) : List String :=
  chunks.filterMap (fun c =>
    match c.delta.content with
    | .str s => some s
    | _ => none)

/-- Spec-side view: the reasoning strings of the chunks, in order. -/
def reasoningDeltas (chunks : List StreamChunk) : List String :=
  chunks.filterMap (fun c =>
    match c.delta.reasoning with
    | .str s => some s
    | _ => none)

/-- In-order concatenation. -/
def concatAll (l : List String) : String := l.foldr (fun x acc => x ++ acc) ""

/-- Spec-side view: all tool-call deltas, in order. -/
def toolCallDeltas (chunks : List StreamChunk) : List ToolCallDelta :=
  (chunks.filterMap (fun c => c.delta.tool_calls)).flatten

/-- Spec-side view: the usage of the last chunk carrying usage data. -/
def lastUsage (chunks : List StreamChunk) : Option (Nat × Nat) :=
  ((chunks.filterMap (fun c => c.usage)).getLast?).map
    (fun u => (u.prompt_tokens, u.completion_tokens))

theorem getLast?_cons_some {α : Type} (x : α) (xs : List α) :
    ∃ y, (x :: xs).getLast? = some y := by
  induction xs generalizing x with
  | nil => exact ⟨x, rfl⟩
  | cons z zs ih =>
    rcases ih z with ⟨y, hy⟩
    exact ⟨y, by rw [List.getLast?_cons_cons, hy]⟩

theorem aggStep_content (a : AggAcc) (c : StreamChunk) :
    (aggStep a c).content = a.content ++ c.delta.content.strD := by
  show (if c.delta.content.truthy then _ else _) = _
  cases hv : c.delta.content with
  | str s =>
    by_cases hs : s.isEmpty
    · rw [String.isEmpty_iff] at hs
      simp [JsStr.truthy, JsStr.strD, hv, hs]
    · simp [JsStr.truthy, JsStr.strD, hv, hs]
  | null => simp [JsStr.truthy, JsStr.strD, hv]
  | absent => simp [JsStr.truthy, JsStr.strD, hv]

theorem aggStep_reasoning (a : AggAcc) (c : StreamChunk) :
    (aggStep a c).reasoning = a.reasoning ++ c.delta.reasoning.strD := by
  show (if c.delta.reasoning.truthy then _ else _) = _
  cases hv : c.delta.reasoning with
  | str s =>
    by_cases hs : s.isEmpty
    · rw [String.isEmpty_iff] at hs
      simp [JsStr.truthy, JsStr.strD, hv, hs]
    · simp [JsStr.truthy, JsStr.strD, hv, hs]
  | null => simp [JsStr.truthy, JsStr.strD, hv]
  | absent => simp [JsStr.truthy, JsStr.strD, hv]

theorem concat_contentDeltas_cons (c : StreamChunk) (cs : List StreamChunk) :
    concatAll (contentDeltas (c :: cs)) =
      c.delta.content.strD ++ concatAll (contentDeltas cs) := by
  cases hv : c.delta.content <;>
    simp [contentDeltas, concatAll, JsStr.strD, List.filterMap_cons, hv]

theorem concat_reasoningDeltas_cons (c : StreamChunk) (cs : List StreamChunk) :
    concatAll (reasoningDeltas (c :: cs)) =
      c.delta.reasoning.strD ++ concatAll (reasoningDeltas cs) := by
  cases hv : c.delta.reasoning <;>
    simp [reasoningDeltas, concatAll, JsStr.strD, List.filterMap_cons, hv]

theorem toolCallDeltas_cons (c : StreamChunk) (cs : List StreamChunk) :
    toolCallDeltas (c :: cs) = (c.delta.tool_calls).getD [] ++ toolCallDeltas cs := by
  cases hv : c.delta.tool_calls <;>
    simp [toolCallDeltas, List.filterMap_cons, hv]

/-- Folding `aggStep` is the spec-side field-wise aggregation. -/
theorem aggFold (chunks : List StreamChunk) (a : AggAcc) :
    chunks.foldl aggStep a =
      { content := a.content ++ concatAll (contentDeltas chunks),
        reasoning := a.reasoning ++ concatAll (reasoningDeltas chunks),
        tool_calls := a.tool_calls ++ toolCallDeltas chunks,
        usage :=
          match lastUsage chunks with
          | some u => some u
          | none => a.usage } := by
  induction chunks generalizing a with
  | nil =>
    simp [contentDeltas, reasoningDeltas, concatAll, toolCallDeltas, lastUsage]
  | cons c cs ih =>
    rw [List.foldl_cons, ih (aggStep a c)]
    rw [aggStep_content, aggStep_reasoning, concat_contentDeltas_cons,
      concat_reasoningDeltas_cons, toolCallDeltas_cons]
    have htc : (aggStep a c).tool_calls = a.tool_calls ++ (c.delta.tool_calls).getD [] := by
      show (match c.delta.tool_calls with
            | some tcs => a.tool_calls ++ tcs
            | none => a.tool_calls) = _
      cases c.delta.tool_calls <;> simp
    rw [htc]
    have hus : (match lastUsage cs with
        | some u => some u
        | none => (aggStep a c).usage) =
      (match lastUsage (c :: cs) with
        | some u => some u
        | none => a.usage) := by
      have hstep : (aggStep a c).usage =
          match c.usage with
          | some u => some (u.prompt_tokens, u.completion_tokens)
          | none => a.usage := rfl
      cases hcu : c.usage with
      | none =>
        have : lastUsage (c :: cs) = lastUsage cs := by
          simp [lastUsage, List.filterMap_cons, hcu]
        rw [this, hstep, hcu]
      | some u =>
        cases hfm : cs.filterMap (fun x => x.usage) with
        | nil =>
          have h1 : lastUsage cs = none := by simp [lastUsage, hfm]
          have h2 : lastUsage (c :: cs) = some (u.prompt_tokens, u.completion_tokens) := by
            simp [lastUsage, List.filterMap_cons, hcu, hfm]
          rw [h1, h2, hstep, hcu]
        | cons x xs =>
          rcases getLast?_cons_some x xs with ⟨y, hy⟩
          have h1 : lastUsage cs = some (y.prompt_tokens, y.completion_tokens) := by
            simp [lastUsage, hfm, hy]
          have h2 : lastUsage (c :: cs) = some (y.prompt_tokens, y.completion_tokens) := by
            simp [lastUsage, List.filterMap_cons, hcu, hfm, List.getLast?_cons_cons, hy]
          rw [h1, h2]
    rw [hus]
    simp [String.append_assoc, List.append_assoc]

/-- C10: for every request (modelled by the parsed envelope sequence and
the client's initial continuity token), the non-streaming `getCompletion`
result is exactly the aggregation of the chunks `streamContent` produces
on the same arguments: its content is the in-order concatenation of the
content deltas, its reasoning the concatenation of the reasoning deltas
(undefined when empty), its tool_calls the in-order collection of the
tool-call deltas (undefined when empty), and its usage the usage of the
last chunk carrying usage data. -/
theorem c10_getCompletion_aggregates (sig0 : Option String) (envs : List Envelope) :
    getCompletion sig0 envs =
      { content := concatAll (contentDeltas (streamContent sig0 envs)),
        reasoning :=
          if (concatAll (reasoningDeltas (streamContent sig0 envs))).isEmpty then none
          else some (concatAll (reasoningDeltas (streamContent sig0 envs))),
        tool_calls :=
          if (toolCallDeltas (streamContent sig0 envs)).isEmpty then none
          else some (toolCallDeltas (streamContent sig0 envs)),
        usage := lastUsage (streamContent sig0 envs) } := by
  show (let a := (streamContent sig0 envs).foldl aggStep
          { content := "", reasoning := "", tool_calls := [], usage := none };
        ({ content := a.content,
           reasoning := if a.reasoning.isEmpty then none else some a.reasoning,
           tool_calls := if a.tool_calls.isEmpty then none else some a.tool_calls,
           usage := a.usage } : CompletionResult)) = _
  rw [aggFold]
  simp only [String.empty_append, List.nil_append]
  cases lastUsage (streamContent sig0 envs) <;> simp

/-! ## JSON schema transform (`transformSchema` in openai-mapper.ts)

JSON values with explicit list types so that the mutual recursion of the
source (objects containing arrays containing objects) is structural.
Objects are entry lists in insertion order, matching `Object.entries`;
`result[key] = v` overwrites an existing key in place or appends. -/

mutual
inductive Json where
  | null : Json
  | bool (b : Bool) : Json
  | num (n : Int) : Json
  | str (s : String) : Json
  | arr (elems : JsonArr) : Json
  | obj (entries : JsonObj) : Json
inductive JsonArr where
  | nil : JsonArr
  | cons (hd : Json) (tl : JsonArr) : JsonArr
inductive JsonObj where
  | nil : JsonObj
  | cons (key : String) (val : Json) (tl : JsonObj) : JsonObj
end

/-- The unsupported meta keys skipped by the transform. -/
def isDroppedKey (k : String) : Bool :=
  ["$schema", "$id", "$ref", "$defs", "definitions", "default",
    "examples", "title"].contains k

/-- `result[key] = v`: overwrite the first entry carrying `key`, else
append a new entry. -/
def setKey : JsonObj → String → Json → JsonObj
  | .nil, k, v => .cons k v .nil
  | .cons k0 v0 tl, k, v =>
    if k0 == k then .cons k0 v tl
    else .cons k0 v0 (setKey tl k v)

mutual
/-- The entry loop of `transformSchema`; `acc` is the `result` object. -/
def transformEntries (acc : JsonObj) : JsonObj → JsonObj
  | .nil => acc
  | .cons k v tl => transformEntries (transformEntry acc k v) tl

/-- One iteration of the `for (const [key, value] of Object.entries(schema))`
loop: skip dropped meta keys, rewrite `const` to a singleton `enum`,
rename anyOf/allOf/oneOf (transforming members), recurse into nested
objects and arrays, and copy other values. -/
def transformEntry (acc : JsonObj) (k : String) (v : Json) : JsonObj :=
  if isDroppedKey k then acc
  else if k == "const" then
    setKey acc "enum" (Json.arr (JsonArr.cons v JsonArr.nil))
  else if k == "anyOf" then
    match v with
    | Json.arr a => setKey acc "any_of" (Json.arr (transformSchemas a))
    | v2 => setKey acc "any_of" v2
  else if k == "allOf" then
    match v with
    | Json.arr a => setKey acc "all_of" (Json.arr (transformSchemas a))
    | v2 => setKey acc "all_of" v2
  else if k == "oneOf" then
    match v with
    | Json.arr a => setKey acc "one_of" (Json.arr (transformSchemas a))
    | v2 => setKey acc "one_of" v2
  else
    match v with
    | Json.obj o => setKey acc k (Json.obj (transformEntries JsonObj.nil o))
    | Json.arr a => setKey acc k (Json.arr (transformElems a))
    | v2 => setKey acc k v2

/-- The member map for anyOf/allOf/oneOf
(`(value as unknown[]).map(v => transformSchema(v as Record))`; a
non-array value would make the source throw a TypeError at `.map`, so it
lies outside the domain and is kept unchanged): each member is cast to a record
and transformed; only object members are in the source's domain, other
members are kept unchanged. -/
def transformSchemas : JsonArr → JsonArr
  | .nil => .nil
  | .cons x tl =>
    match x with
    | Json.obj o => .cons (Json.obj (transformEntries JsonObj.nil o)) (transformSchemas tl)
    | v2 => .cons v2 (transformSchemas tl)

/-- `transformSchema` applied to a JavaScript array seen as a record: the
`Object.entries` view of an array is its elements keyed by their decimal
indices, so the entry loop runs over (index, element) pairs. -/
def transformArrEntries (acc : JsonObj) (i : Nat) : JsonArr → JsonObj
  | .nil => acc
  | .cons x tl => transformArrEntries (transformEntry acc (toString i) x) (i + 1) tl

/-- `value.map(v => v && typeof v === "object" ? transformSchema(v) : v)`
for a nested array value: object elements are transformed; an element that
is itself an array is transformed as a record through its `Object.entries`
view, exactly as the unguarded cast does; `null` and primitives are
kept. -/
def transformElems : JsonArr → JsonArr
  | .nil => .nil
  | .cons x tl =>
    match x with
    | Json.obj o => .cons (Json.obj (transformEntries JsonObj.nil o)) (transformElems tl)
    | Json.arr a =>
      .cons (Json.obj (transformArrEntries JsonObj.nil 0 a)) (transformElems tl)
    | v2 => .cons v2 (transformElems tl)
end

/-- `transformSchema(schema)`: the transformed result object. -/
def transformSchema (schema : JsonObj) : JsonObj := transformEntries JsonObj.nil schema

mutual
/-- No dropped meta key occurs at any depth of the value. -/
def noDroppedVal : Json → Bool
  | Json.obj o => noDroppedObj o
  | Json.arr a => noDroppedArr a
  | _ => true
def noDroppedArr : JsonArr → Bool
  | .nil => true
  | .cons x tl => noDroppedVal x && noDroppedArr tl
def noDroppedObj : JsonObj → Bool
  | .nil => true
  | .cons k v tl => !isDroppedKey k && noDroppedVal v && noDroppedObj tl
end

/-- A JSON leaf (not an object or array). -/
def isAtomic : Json → Bool
  | Json.obj _ => false
  | Json.arr _ => false
  | _ => true

mutual
/-- The source's domain, per entry: a `const` value is atomic (the
transform embeds it verbatim into `enum`), an anyOf/allOf/oneOf value is
an array of objects, and any other value is a well-formed nested value. -/
def schemaOkEntry (k : String) (v : Json) : Bool :=
  if k == "const" then isAtomic v
  else if k == "anyOf" || k == "allOf" || k == "oneOf" then
    (match v with
     | Json.arr a => schemaOkObjList a
     | _ => false)
  else
    match v with
    | Json.obj o => schemaOkObj o
    | Json.arr a => schemaOkArr a
    | _ => true
/-- Array elements in the domain are objects or leaves. -/
def schemaOkArr : JsonArr → Bool
  | .nil => true
  | .cons x tl =>
    (match x with
     | Json.obj o => schemaOkObj o
     | Json.arr _ => false
     | _ => true) && schemaOkArr tl
/-- anyOf/allOf/oneOf member lists in the domain hold objects only. -/
def schemaOkObjList : JsonArr → Bool
  | .nil => true
  | .cons x tl =>
    (match x with
     | Json.obj o => schemaOkObj o
     | _ => false) && schemaOkObjList tl
/-- The source's domain for a whole schema object. -/
def schemaOkObj : JsonObj → Bool
  | .nil => true
  | .cons k v tl => schemaOkEntry k v && schemaOkObj tl
end

/-- The claim's concrete schema. -/
def c5Example : JsonObj :=
  JsonObj.cons "const" (Json.str "x")
    (JsonObj.cons "anyOf"
      (Json.arr (JsonArr.cons
        (Json.obj (JsonObj.cons "type" (Json.str "string") JsonObj.nil)) JsonArr.nil))
      (JsonObj.cons "$schema" (Json.str "...") JsonObj.nil))

/-- The claim's expected transform result. -/
def c5Expected : JsonObj :=
  JsonObj.cons "enum" (Json.arr (JsonArr.cons (Json.str "x") JsonArr.nil))
    (JsonObj.cons "any_of"
      (Json.arr (JsonArr.cons
        (Json.obj (JsonObj.cons "type" (Json.str "string") JsonObj.nil)) JsonArr.nil))
      JsonObj.nil)

theorem atomic_noDroppedVal : ∀ (v : Json), isAtomic v = true → noDroppedVal v = true
  | Json.null, _ => rfl
  | Json.bool _, _ => rfl
  | Json.num _, _ => rfl
  | Json.str _, _ => rfl
  | Json.obj _, h => by simp [isAtomic] at h
  | Json.arr _, h => by simp [isAtomic] at h

theorem noDroppedObj_setKey : ∀ (o : JsonObj) (k : String) (v : Json),
    noDroppedObj o = true → isDroppedKey k = false → noDroppedVal v = true →
    noDroppedObj (setKey o k v) = true
  | .nil, k, v, _, hk, hv => by
    show noDroppedObj (.cons k v .nil) = true
    simp [noDroppedObj, hk, hv]
  | .cons k0 v0 tl, k, v, ho, hk, hv => by
    rw [noDroppedObj, Bool.and_eq_true, Bool.and_eq_true] at ho
    obtain ⟨⟨hk0, hv0⟩, htl⟩ := ho
    rw [setKey]
    by_cases h : (k0 == k) = true
    · rw [if_pos h]
      simp [noDroppedObj, hk0, hv, htl]
    · rw [if_neg h]
      simp [noDroppedObj, hk0, hv0, noDroppedObj_setKey tl k v htl hk hv]

mutual
theorem transformEntries_noDropped : ∀ (o : JsonObj) (acc : JsonObj),
    schemaOkObj o = true → noDroppedObj acc = true →
    noDroppedObj (transformEntries acc o) = true
  | .nil, _, _, hacc => hacc
  | .cons k v tl, acc, ho, hacc => by
    have ho2 : (schemaOkEntry k v && schemaOkObj tl) = true := ho
    rw [Bool.and_eq_true] at ho2
    obtain ⟨hcond, htl⟩ := ho2
    rw [transformEntries]
    exact transformEntries_noDropped tl _ htl (transformEntry_noDropped acc k v hcond hacc)

theorem transformEntry_noDropped : ∀ (acc : JsonObj) (k : String) (v : Json),
    schemaOkEntry k v = true → noDroppedObj acc = true →
    noDroppedObj (transformEntry acc k v) = true
  | acc, k, v, hcond, hacc => by
    rw [schemaOkEntry.eq_def] at hcond
    rw [transformEntry.eq_def]
    by_cases hdrop : isDroppedKey k = true
    · rw [if_pos hdrop]
      exact hacc
    · have hdropf : isDroppedKey k = false := by
        revert hdrop
        cases isDroppedKey k <;> simp
      rw [if_neg hdrop]
      by_cases hconst : (k == "const") = true
      · rw [if_pos hconst]
        rw [if_pos hconst] at hcond
        have hv : noDroppedVal (Json.arr (JsonArr.cons v JsonArr.nil)) = true := by
          show (noDroppedVal v && true) = true
          simp [atomic_noDroppedVal v hcond]
        exact noDroppedObj_setKey acc "enum" (Json.arr (JsonArr.cons v JsonArr.nil))
          hacc (by decide) hv
      · rw [if_neg hconst]
        rw [if_neg hconst] at hcond
        by_cases hany : (k == "anyOf") = true
        · rw [if_pos hany]
          rw [if_pos (by simp [hany] : (k == "anyOf" || k == "allOf" || k == "oneOf") = true)]
            at hcond
          cases v with
          | arr a =>
            have hmem : noDroppedVal (Json.arr (transformSchemas a)) = true :=
              transformSchemas_noDropped a hcond
            exact noDroppedObj_setKey acc "any_of" (Json.arr (transformSchemas a))
              hacc (by decide) hmem
          | _ => simp at hcond
        · rw [if_neg hany]
          by_cases hall : (k == "allOf") = true
          · rw [if_pos hall]
            rw [if_pos (by simp [hall] : (k == "anyOf" || k == "allOf" || k == "oneOf") = true)]
              at hcond
            cases v with
            | arr a =>
              have hmem : noDroppedVal (Json.arr (transformSchemas a)) = true :=
                transformSchemas_noDropped a hcond
              exact noDroppedObj_setKey acc "all_of" (Json.arr (transformSchemas a))
                hacc (by decide) hmem
            | _ => simp at hcond
          · rw [if_neg hall]
            by_cases hone : (k == "oneOf") = true
            · rw [if_pos hone]
              rw [if_pos (by simp [hone] :
                    (k == "anyOf" || k == "allOf" || k == "oneOf") = true)] at hcond
              cases v with
              | arr a =>
                have hmem : noDroppedVal (Json.arr (transformSchemas a)) = true :=
                  transformSchemas_noDropped a hcond
                exact noDroppedObj_setKey acc "one_of" (Json.arr (transformSchemas a))
                  hacc (by decide) hmem
              | _ => simp at hcond
            · rw [if_neg hone]
              rw [if_neg (by simp [hany, hall, hone] :
                    ¬(k == "anyOf" || k == "allOf" || k == "oneOf") = true)] at hcond
              cases v with
              | obj o =>
                have hmem : noDroppedVal (Json.obj (transformEntries JsonObj.nil o)) = true :=
                  transformEntries_noDropped o JsonObj.nil hcond rfl
                exact noDroppedObj_setKey acc k (Json.obj (transformEntries JsonObj.nil o))
                  hacc hdropf hmem
              | arr a =>
                have hmem : noDroppedVal (Json.arr (transformElems a)) = true :=
                  transformElems_noDropped a hcond
                exact noDroppedObj_setKey acc k (Json.arr (transformElems a))
                  hacc hdropf hmem
              | null => exact noDroppedObj_setKey acc k Json.null hacc hdropf rfl
              | bool b => exact noDroppedObj_setKey acc k (Json.bool b) hacc hdropf rfl
              | num n => exact noDroppedObj_setKey acc k (Json.num n) hacc hdropf rfl
              | str s => exact noDroppedObj_setKey acc k (Json.str s) hacc hdropf rfl

theorem transformSchemas_noDropped : ∀ (a : JsonArr),
    schemaOkObjList a = true → noDroppedArr (transformSchemas a) = true
  | .nil, _ => rfl
  | .cons x tl, h => by
    cases x with
    | obj o =>
      have h2 : (schemaOkObj o && schemaOkObjList tl) = true := h
      rw [Bool.and_eq_true] at h2
      show (noDroppedObj (transformEntries JsonObj.nil o)
        && noDroppedArr (transformSchemas tl)) = true
      rw [Bool.and_eq_true]
      exact ⟨transformEntries_noDropped o JsonObj.nil h2.1 rfl,
        transformSchemas_noDropped tl h2.2⟩
    | _ =>
      exact absurd (show (false && schemaOkObjList tl) = true from h) (by simp)

theorem transformElems_noDropped : ∀ (a : JsonArr),
    schemaOkArr a = true → noDroppedArr (transformElems a) = true
  | .nil, _ => rfl
  | .cons x tl, h => by
    cases x with
    | obj o =>
      have h2 : (schemaOkObj o && schemaOkArr tl) = true := h
      rw [Bool.and_eq_true] at h2
      show (noDroppedObj (transformEntries JsonObj.nil o)
        && noDroppedArr (transformElems tl)) = true
      rw [Bool.and_eq_true]
      exact ⟨transformEntries_noDropped o JsonObj.nil h2.1 rfl,
        transformElems_noDropped tl h2.2⟩
    | arr a2 =>
      exact absurd (show (false && schemaOkArr tl) = true from h) (by simp)
    | _ =>
      have h2 : (true && schemaOkArr tl) = true := h
      rw [Bool.and_eq_true] at h2
      show (true && noDroppedArr (transformElems tl)) = true
      rw [Bool.and_eq_true]
      exact ⟨rfl, transformElems_noDropped tl h2.2⟩
end

/-- C5: `transformSchema` maps the claim's concrete input to exactly the
claimed output; every dropped meta key is skipped, every `const: v` entry
is rewritten to `enum: [v]` (the value embedded verbatim), the
anyOf/allOf/oneOf entries are renamed with members transformed, and on
every input in the transform's domain (`const` values atomic, combinator
values arrays of objects, array elements objects or leaves — exactly the
shapes the unguarded casts of the source assume) the result carries no
dropped meta key at any nesting depth. -/
theorem c5_transformSchema_correct :
    transformSchema c5Example = c5Expected
      ∧ (∀ schema : JsonObj, schemaOkObj schema = true →
          noDroppedObj (transformSchema schema) = true)
      ∧ (∀ (acc : JsonObj) (v : Json),
          transformEntry acc "const" v =
            setKey acc "enum" (Json.arr (JsonArr.cons v JsonArr.nil)))
      ∧ (∀ (acc : JsonObj) (a : JsonArr),
          transformEntry acc "anyOf" (Json.arr a) =
            setKey acc "any_of" (Json.arr (transformSchemas a)))
      ∧ (∀ (acc : JsonObj) (a : JsonArr),
          transformEntry acc "allOf" (Json.arr a) =
            setKey acc "all_of" (Json.arr (transformSchemas a)))
      ∧ (∀ (acc : JsonObj) (a : JsonArr),
          transformEntry acc "oneOf" (Json.arr a) =
            setKey acc "one_of" (Json.arr (transformSchemas a)))
      ∧ (∀ (acc : JsonObj) (k : String) (v : Json),
          isDroppedKey k = true → transformEntry acc k v = acc) := by
  refine ⟨rfl, ?_, ?_, ?_, ?_, ?_, ?_⟩
  · intro schema h
    exact transformEntries_noDropped schema JsonObj.nil h rfl
  · intro acc v
    cases v <;> rfl
  · intro acc a
    rfl
  · intro acc a
    rfl
  · intro acc a
    rfl
  · intro acc k v h
    rw [transformEntry.eq_def, if_pos h]

/-- C5 witness: the depth-wise no-dropped-keys conclusion and the
key-skipping conclusion, applied at concrete inputs. -/
theorem c5_transformSchema_witness :
    noDroppedObj (transformSchema c5Example) = true
      ∧ transformEntry JsonObj.nil "title" Json.null = JsonObj.nil :=
  ⟨c5_transformSchema_correct.2.1 c5Example rfl,
   c5_transformSchema_correct.2.2.2.2.2.2 JsonObj.nil "title" Json.null rfl⟩

/-! ## Thinking budget and output-token limit (openai-mapper.ts)

`getThinkingBudget` plus the generation-config logic of
`mapOpenAIToAntigravity` (max_tokens is copied only when truthy; for
thinking models the limit is raised to budget + 8192 when absent or not
above the budget). -/

inductive ReasoningEffort where
  | low
  | medium
  | high
  | xhigh
  deriving Repr, DecidableEq

/-- `s` starts with the pattern `pat`. -/
def leadMatch : List Char → List Char → Bool
  | _, [] => true
  | [], _ :: _ => false
  | c :: cs, p :: ps => c == p && leadMatch cs ps

/-- `pat` occurs contiguously in `s`. -/
def containsSeq : List Char → List Char → Bool
  | [], pat => leadMatch [] pat
  | c :: cs, pat => leadMatch (c :: cs) pat || containsSeq cs pat

/-- `modelId.includes(sub)`. -/
def jsIncludes (s sub : String) : Bool := containsSeq s.toList sub.toList

/-- `getThinkingBudget(modelId, request)`: the four fixed effort tiers,
else the per-model default table. -/
def getThinkingBudget (modelId : String) (effort : Option ReasoningEffort) : Int :=
  match effort with
  | some .low => 8192
  | some .medium => 16384
  | some .high => 32768
  | some .xhigh => 65536
  | none =>
    if jsIncludes modelId "opus" then 32768
    else if jsIncludes modelId "sonnet" then 16384
    else if jsIncludes modelId "gemini-3-pro" then 16384
    else if jsIncludes modelId "gemini-3-flash" then 8192
    else 8192

def isThinkingModel (modelId : String) : Bool := jsIncludes modelId "thinking"

/-- The `maxOutputTokens` field of the generation config built by
`mapOpenAIToAntigravity`: `request.max_tokens` is copied only when truthy
(0 is falsy); for a thinking model, when the field is unset or does not
exceed the thinking budget it becomes budget + 8192, otherwise the
caller's value is kept unchanged. -/
def genConfigMaxOutputTokens (modelId : String) (maxTokens : Option Int)
    (effort : Option ReasoningEffort) : Option Int :=
  let m0 : Option Int :=
    match maxTokens with
    | some v => if v ≠ 0 then some v else none
    | none => none
  if isThinkingModel modelId then
    let tb := getThinkingBudget modelId effort
    match m0 with
    | none => some (tb + 8192)
    | some v => if v ≤ tb then some (tb + 8192) else some v
  else m0

/-- C6 counterexample: for the thinking model `gemini-3-flash-thinking`
(budget 8192) a caller-supplied `max_tokens` of 8193 — only slightly above
the budget — is kept unchanged, a margin of 1; with `max_tokens` absent
the limit is 16384, a margin of 8192.  There is no fixed safety margin by
which the limit exceeds the budget for every caller-supplied value. -/
theorem c6_counterexample :
    getThinkingBudget "gemini-3-flash-thinking" none = 8192
      ∧ genConfigMaxOutputTokens "gemini-3-flash-thinking" (some 8193) none = some 8193
      ∧ genConfigMaxOutputTokens "gemini-3-flash-thinking" none none = some 16384
      ∧ (8193 : Int) ≠ 8192 + 8192 := by
  refine ⟨by decide, by decide, by decide, by decide⟩

/-- C6 (amended): for every thinking-model request the budget follows the
explicit effort tiers (low 8192, medium 16384, high 32768, xhigh 65536)
or, absent a hint, the per-model default table, and `maxOutputTokens` is
always set and strictly exceeds the budget — equal to budget + 8192 when
`max_tokens` is absent, zero, or not above the budget, and equal to the
caller's own `max_tokens` otherwise (so the margin can be as small as
1). -/
theorem c6_thinking_budget (modelId : String) (maxTokens : Option Int)
    (effort : Option ReasoningEffort) (h : isThinkingModel modelId = true) :
    (getThinkingBudget modelId (some .low) = 8192
      ∧ getThinkingBudget modelId (some .medium) = 16384
      ∧ getThinkingBudget modelId (some .high) = 32768
      ∧ getThinkingBudget modelId (some .xhigh) = 65536)
    ∧ ∃ out : Int, genConfigMaxOutputTokens modelId maxTokens effort = some out
        ∧ getThinkingBudget modelId effort < out
        ∧ (out = getThinkingBudget modelId effort + 8192 ∨ maxTokens = some out) := by
  refine ⟨⟨rfl, rfl, rfl, rfl⟩, ?_⟩
  unfold genConfigMaxOutputTokens
  rw [h]
  simp only [if_true]
  cases maxTokens with
  | none => exact ⟨getThinkingBudget modelId effort + 8192, rfl, by omega, Or.inl rfl⟩
  | some v =>
    by_cases hv : v = 0
    · subst hv
      simp only [ne_eq, not_true_eq_false, if_false]
      exact ⟨getThinkingBudget modelId effort + 8192, rfl, by omega, Or.inl rfl⟩
    · simp only [ne_eq, hv, not_false_eq_true, if_true]
      by_cases hle : v ≤ getThinkingBudget modelId effort
      · rw [if_pos hle]
        exact ⟨getThinkingBudget modelId effort + 8192, rfl, by omega, Or.inl rfl⟩
      · rw [if_neg hle]
        exact ⟨v, rfl, by omega, Or.inr rfl⟩

/-- C6 witness: a concrete thinking model with a caller limit above the
budget. -/
theorem c6_thinking_budget_witness :
    ∃ out : Int,
      genConfigMaxOutputTokens "claude-opus-4-5-thinking" (some 1000) none = some out
        ∧ getThinkingBudget "claude-opus-4-5-thinking" none < out
        ∧ (out = getThinkingBudget "claude-opus-4-5-thinking" none + 8192
            ∨ (some 1000 : Option Int) = some out) :=
  (c6_thinking_budget "claude-opus-4-5-thinking" (some 1000) none (by decide)).2

/-! ## Endpoint fallback priority (`makeRequest` / `streamContent`)

The candidate loop (`for (let i = 0; i < endpoints.length; i++)`) attempts
the fallback list from its head on every call; on a 2xx at candidate `i`
it records `this.currentEndpointIndex = i` (read only by the private,
uncalled `getCurrentEndpoint` helper) and returns; a 5xx moves to the next
candidate when one remains; any other failure throws.  The OAuth-rotation
retry branch fires only for 429/403/504 with rotation enabled, which is
orthogonal to the priority question; the model takes rotation disabled.
Outcomes of the candidates are passed in as their HTTP statuses. -/

structure ReqResult where
  attempted : List Nat
  success : Option Nat
  endpointIndexAfter : Nat
  deriving Repr, DecidableEq

/-- `response.ok`. -/
def isOkStatus (s : Nat) : Bool := decide (200 ≤ s) && decide (s < 300)

/-- The candidate loop; `i` is the loop counter, `acc` the indices
attempted so far, `curIdx` the stored `currentEndpointIndex`. -/
def requestLoop (total : Nat) (curIdx : Nat) (acc : List Nat) :
    List Nat → Nat → ReqResult
  | [], _ => { attempted := acc, success := none, endpointIndexAfter := curIdx }
  | s :: rest, i =>
    if isOkStatus s then
      { attempted := acc ++ [i], success := some i, endpointIndexAfter := i }
    else if 500 ≤ s ∧ i < total - 1 then
      requestLoop total curIdx (acc ++ [i]) rest (i + 1)
    else { attempted := acc ++ [i], success := none, endpointIndexAfter := curIdx }

/-- One `makeRequest`/`streamContent` call: the loop always starts at
candidate 0, whatever `currentEndpointIndex` holds. -/
def makeRequest (curIdx : Nat) (statuses : List Nat) : ReqResult :=
  requestLoop statuses.length curIdx [] statuses 0

theorem requestLoop_attempted (total : Nat) (curIdx : Nat) :
    ∀ (ss : List Nat) (i : Nat) (acc : List Nat),
      ∃ t, (requestLoop total curIdx acc ss i).attempted = acc ++ t
        ∧ (ss ≠ [] → t.head? = some i) := by
  intro ss
  induction ss with
  | nil =>
    intro i acc
    exact ⟨[], by simp [requestLoop], fun hc => absurd rfl hc⟩
  | cons s rest ih =>
    intro i acc
    rw [requestLoop]
    by_cases hok : isOkStatus s = true
    · rw [if_pos hok]
      exact ⟨[i], rfl, fun _ => rfl⟩
    · rw [if_neg hok]
      by_cases hnext : 500 ≤ s ∧ i < total - 1
      · rw [if_pos hnext]
        rcases ih (i + 1) (acc ++ [i]) with ⟨t, ht, _⟩
        refine ⟨[i] ++ t, ?_, fun _ => rfl⟩
        rw [ht, List.append_assoc]
      · rw [if_neg hnext]
        exact ⟨[i], rfl, fun _ => rfl⟩

theorem requestLoop_success_records (total : Nat) (curIdx : Nat) :
    ∀ (ss : List Nat) (i : Nat) (acc : List Nat) (j : Nat),
      (requestLoop total curIdx acc ss i).success = some j →
      (requestLoop total curIdx acc ss i).endpointIndexAfter = j := by
  intro ss
  induction ss with
  | nil =>
    intro i acc j h
    simp [requestLoop] at h
  | cons s rest ih =>
    intro i acc j h
    rw [requestLoop] at h ⊢
    by_cases hok : isOkStatus s = true
    · rw [if_pos hok] at h ⊢
      simp only at h
      simpa using h
    · rw [if_neg hok] at h ⊢
      by_cases hnext : 500 ≤ s ∧ i < total - 1
      · rw [if_pos hnext] at h ⊢
        exact ih (i + 1) (acc ++ [i]) j h
      · rw [if_neg hnext] at h ⊢
        simp at h

/-- C7 counterexample: a first call that succeeds at candidate 1 records
`currentEndpointIndex = 1`, yet the next call still attempts candidate 0
first — it does not begin at the recorded index. -/
theorem c7_counterexample :
    (makeRequest 0 [500, 200, 200]).endpointIndexAfter = 1
      ∧ (makeRequest 1 [200, 200, 200]).attempted = [0]
      ∧ (makeRequest 1 [200, 200, 200]).attempted.head? ≠ some 1 := by
  refine ⟨by decide, by decide, by decide⟩

/-- C7 (amended): a 2xx at candidate `i` records `i` in
`currentEndpointIndex` (exposed only through the unused private
`getCurrentEndpoint` helper), but every subsequent `makeRequest`/
`streamContent` call begins its endpoint attempts at the head of the
fallback list (candidate 0), not at the recorded index. -/
theorem c7_endpoint_priority (curIdx : Nat) (statuses : List Nat) :
    (statuses ≠ [] → (makeRequest curIdx statuses).attempted.head? = some 0)
    ∧ ∀ i, (makeRequest curIdx statuses).success = some i →
        (makeRequest curIdx statuses).endpointIndexAfter = i := by
  constructor
  · intro hne
    rcases requestLoop_attempted statuses.length curIdx statuses 0 [] with ⟨t, ht, hh⟩
    rw [makeRequest, ht, List.nil_append]
    exact hh hne
  · intro i h
    exact requestLoop_success_records statuses.length curIdx statuses 0 [] i h

/-- C7 witness: a concrete call with the stored index at 2 still attempts
candidate 0 first, and a success at candidate 1 records index 1. -/
theorem c7_endpoint_priority_witness :
    (makeRequest 2 [500, 200, 200]).attempted.head? = some 0
      ∧ (makeRequest 2 [500, 200, 200]).endpointIndexAfter = 1 :=
  ⟨(c7_endpoint_priority 2 [500, 200, 200]).1 (by decide),
   (c7_endpoint_priority 2 [500, 200, 200]).2 1 (by decide)⟩

/-! ## Model fallback chain (paths.ts, model switcher)

`ANTIGRAVITY_MODEL_FALLBACK` is the static chain table of
src/antigravity/paths.ts.  The model switcher holding
`getBestAvailableModel` is not under src/ (src/auth/cli.ts holds only its
tests), so the walk itself is modelled from the spec.  The cooldown state
is passed in as a predicate. -/

def ANTIGRAVITY_MODEL_FALLBACK : List (String × Option String) :=
  [("claude-opus-4-5-thinking", some "claude-sonnet-4-5-thinking"),
   ("claude-sonnet-4-5-thinking", some "claude-sonnet-4-5"),
   ("claude-sonnet-4-5", none),
   ("gemini-3-pro-high", some "gemini-3-pro-low"),
   ("gemini-3-pro-low", some "gemini-3-flash-high"),
   ("gemini-3-flash-high", some "gemini-3-flash-medium"),
   ("gemini-3-flash-medium", some "gemini-3-flash-low"),
   ("gemini-3-flash-low", some "gemini-3-flash-minimal"),
   ("gemini-3-flash-minimal", none)]

/-- `getFallbackModel(model)`: pure table lookup, null at chain ends and
for unknown models. -/
def getFallbackModel (m : String) : Option String :=
  match ANTIGRAVITY_MODEL_FALLBACK.find? (fun e => e.1 == m) with
  | some e => e.2
  | none => none

/-- Modelled from the spec: `getBestAvailableModel(preferred)` "walks the
chain starting at `preferred`, returning the first model not in cooldown,
or the last model reached if the entire remaining chain is in cooldown,
or the input unchanged if it has no chain entry" (spec §4.4).  `fuel`
bounds the walk; the concrete table's longest chain has 6 links. -/
def walkChain (cooldown : String → Bool) : Nat → String → String
  | 0, m => m
  | fuel + 1, m =>
    if cooldown m = false then m
    else
      match getFallbackModel m with
      | none => m
      | some nxt => walkChain cooldown fuel nxt

/-- Modelled from the spec: `getBestAvailableModel`, with fuel covering
the whole static table. -/
def getBestAvailableModel (cooldown : String → Bool) (m : String) : String :=
  walkChain cooldown 16 m

/-- The fallback chain starting at `m` (inclusive). -/
def chainFrom (cooldown : String → Bool) : Nat → String → List String
  | 0, m => [m]
  | fuel + 1, m =>
    if cooldown m = false then [m]
    else
      match getFallbackModel m with
      | none => [m]
      | some nxt => m :: chainFrom cooldown fuel nxt

theorem chainFrom_ne_nil (cooldown : String → Bool) (fuel : Nat) (m : String) :
    chainFrom cooldown fuel m ≠ [] := by
  cases fuel with
  | zero => simp [chainFrom]
  | succ fuel =>
    rw [chainFrom]
    split
    · simp
    · split <;> simp

theorem getLastD_congr {α : Type} (l : List α) (d1 d2 : α) (h : l ≠ []) :
    l.getLastD d1 = l.getLastD d2 := by
  cases l with
  | nil => exact absurd rfl h
  | cons x xs =>
    rcases getLast?_cons_some x xs with ⟨y, hy⟩
    rw [List.getLastD_eq_getLast?, List.getLastD_eq_getLast?, hy]
    rfl

theorem getLastD_cons_tl {α : Type} (a : α) (l : List α) (d : α) (h : l ≠ []) :
    (a :: l).getLastD d = l.getLastD d := by
  cases l with
  | nil => exact absurd rfl h
  | cons x xs =>
    rcases getLast?_cons_some x xs with ⟨y, hy⟩
    rw [List.getLastD_eq_getLast?, List.getLastD_eq_getLast?, List.getLast?_cons_cons, hy]

/-- The walk returns the first chain element not in cooldown, or the last
element reached when the whole chain is in cooldown. -/
theorem walkChain_char (cooldown : String → Bool) :
    ∀ (fuel : Nat) (m : String),
      walkChain cooldown fuel m =
        ((chainFrom cooldown fuel m).find? (fun x => !cooldown x)).getD
          ((chainFrom cooldown fuel m).getLastD m) := by
  intro fuel
  induction fuel with
  | zero =>
    intro m
    cases hc : cooldown m <;>
      simp [walkChain, chainFrom, List.find?, hc, List.getLastD]
  | succ fuel ih =>
    intro m
    rw [walkChain, chainFrom]
    by_cases hc : cooldown m = false
    · rw [if_pos hc, if_pos hc]
      simp [List.find?, hc, List.getLastD]
    · rw [if_neg hc, if_neg hc]
      have hct : cooldown m = true := by
        revert hc
        cases cooldown m <;> simp
      cases hf : getFallbackModel m with
      | none => simp [List.find?, hct, List.getLastD]
      | some nxt =>
        have hfind : List.find? (fun x => !cooldown x) (m :: chainFrom cooldown fuel nxt) =
            List.find? (fun x => !cooldown x) (chainFrom cooldown fuel nxt) := by
          rw [List.find?_cons_of_neg]
          simp [hct]
        show walkChain cooldown fuel nxt =
          (List.find? (fun x => !cooldown x) (m :: chainFrom cooldown fuel nxt)).getD
            ((m :: chainFrom cooldown fuel nxt).getLastD m)
        rw [ih nxt, hfind,
          getLastD_cons_tl m (chainFrom cooldown fuel nxt) m (chainFrom_ne_nil cooldown fuel nxt),
          getLastD_congr (chainFrom cooldown fuel nxt) m nxt (chainFrom_ne_nil cooldown fuel nxt)]

/-- C8: `getBestAvailableModel(m)` returns `m` unchanged when `m` is not
in cooldown or has no fallback-chain entry; when `m` is in cooldown with a
chain entry it walks the static chain from `m`, returning the first model
not in cooldown, or the last model reached when the entire remaining
chain is in cooldown. -/
theorem c8_getBestAvailableModel (cooldown : String → Bool) (m : String) :
    (cooldown m = false → getBestAvailableModel cooldown m = m)
    ∧ (getFallbackModel m = none → getBestAvailableModel cooldown m = m)
    ∧ getBestAvailableModel cooldown m =
        ((chainFrom cooldown 16 m).find? (fun x => !cooldown x)).getD
          ((chainFrom cooldown 16 m).getLastD m) := by
  refine ⟨?_, ?_, walkChain_char cooldown 16 m⟩
  · intro h
    show walkChain cooldown (15 + 1) m = m
    rw [walkChain, if_pos h]
  · intro h
    show walkChain cooldown (15 + 1) m = m
    rw [walkChain]
    by_cases hc : cooldown m = false
    · rw [if_pos hc]
    · rw [if_neg hc, h]

/-- C8 witness: with `gemini-3-pro-high` and `gemini-3-pro-low` cooling
down, the walk from `gemini-3-pro-high` lands on the first available
model down the chain, and models without cooldown or chain entry pass
through unchanged. -/
theorem c8_getBestAvailableModel_witness :
    (getBestAvailableModel (fun x => x == "gemini-3-pro-high" || x == "gemini-3-pro-low")
        "claude-sonnet-4-5" = "claude-sonnet-4-5")
      ∧ getBestAvailableModel (fun x => x == "gemini-3-pro-high" || x == "gemini-3-pro-low")
          "unknown-model" = "unknown-model"
      ∧ getBestAvailableModel (fun x => x == "gemini-3-pro-high" || x == "gemini-3-pro-low")
          "gemini-3-pro-high" =
        ((chainFrom (fun x => x == "gemini-3-pro-high" || x == "gemini-3-pro-low") 16
            "gemini-3-pro-high").find?
          (fun x => !(x == "gemini-3-pro-high" || x == "gemini-3-pro-low"))).getD
          ((chainFrom (fun x => x == "gemini-3-pro-high" || x == "gemini-3-pro-low") 16
            "gemini-3-pro-high").getLastD "gemini-3-pro-high") :=
  ⟨(c8_getBestAvailableModel _ "claude-sonnet-4-5").1 (by decide),
   (c8_getBestAvailableModel _ "unknown-model").2.1 (by decide),
   (c8_getBestAvailableModel _ "gemini-3-pro-high").2.2⟩

/-! ## Single-flight rotation guard (`rotateCredentials`)

`rotateCredentials` checks `rotationInProgress && rotationPromise` and,
when clear, sets both and invokes `performRotation()` — with no `await`
between check and set, so on the single-threaded event loop this prefix is
atomic with respect to other tasks.  A `call` event is one
`rotateCredentials()` invocation reaching the guard: it either joins the
in-flight rotation (returning its promise, hence observing its resulting
path) or starts flight `nextId` (the one task that performs the
credential-file copy).  `resolve` is the settling of the in-flight promise
(the `finally` block clearing the guard). -/

inductive RotEvent where
  | call
  | resolve
  deriving Repr, DecidableEq

structure FlightState where
  inFlight : Option Nat
  started : List Nat
  nextId : Nat
  deriving Repr, DecidableEq

def flightStep (st : FlightState) : RotEvent → FlightState × Option Nat
  | .call =>
    match st.inFlight with
    | some k => (st, some k)
    | none =>
      ({ inFlight := some st.nextId, started := st.started ++ [st.nextId],
         nextId := st.nextId + 1 }, some st.nextId)
  | .resolve => ({ st with inFlight := none }, none)

/-- Run a sequence of events, collecting each call's observed flight. -/
def flightRun (st : FlightState) : List RotEvent → FlightState × List Nat
  | [] => (st, [])
  | e :: es =>
    let r := flightStep st e
    let rest := flightRun r.1 es
    (rest.1,
      (match r.2 with
       | some k => [k]
       | none => []) ++ rest.2)

theorem flightRun_joined (k : Nat) :
    ∀ (n : Nat) (st : FlightState), st.inFlight = some k →
      flightRun st (List.replicate n .call) = (st, List.replicate n k) := by
  intro n
  induction n with
  | zero =>
    intro st _
    rfl
  | succ n ih =>
    intro st h
    rw [List.replicate_succ, flightRun]
    have hstep : flightStep st .call = (st, some k) := by
      show (match st.inFlight with
            | some k => (st, some k)
            | none => _) = (st, some k)
      rw [h]
    rw [hstep, ih st h, List.replicate_succ]
    rfl

/-- C9: `rotateCredentials()` is single-flight — every call issued while
the first rotation is in flight (before its `resolve`) observes the same
flight, hence the identical resulting credential path, and exactly one
`performRotation()` (one credential-file copy to the canonical path) is
started for the whole burst. -/
theorem c9_single_flight (n : Nat) (st : FlightState) (h : st.inFlight = none) :
    (flightRun st (List.replicate (n + 1) .call)).2 = List.replicate (n + 1) st.nextId
    ∧ (flightRun st (List.replicate (n + 1) .call)).1.started = st.started ++ [st.nextId] := by
  rw [List.replicate_succ, flightRun]
  have hstep : flightStep st .call =
      ({ inFlight := some st.nextId, started := st.started ++ [st.nextId],
         nextId := st.nextId + 1 }, some st.nextId) := by
    show (match st.inFlight with
          | some k => (st, some k)
          | none => _) = _
    rw [h]
  rw [hstep, flightRun_joined st.nextId n _ rfl]
  constructor
  · rw [List.replicate_succ]
    rfl
  · rfl

/-- C9 witness: a burst of three concurrent calls from the idle state. -/
theorem c9_single_flight_witness :
    (flightRun ⟨none, [], 0⟩ (List.replicate 3 .call)).2 = List.replicate 3 0
      ∧ (flightRun ⟨none, [], 0⟩ (List.replicate 3 .call)).1.started = [0] :=
  c9_single_flight 2 ⟨none, [], 0⟩ rfl

end GeminiProxy
